import Mathlib

/-!
Verification of the `airc` IRC client core (file `airc.py`): the line
parser `Message.parse`, the connection lifecycle driven by `Client.connect`,
the handler registry (`Client.on`, `Client._dispatch`), the built-in PING
handler, the send primitive `Client.send_raw`, and the read loop
`Client._read_loop`.

Strings are modelled as `List Char`.  The Python string operations used by
the source (`str.strip`, `str.split`, `str.partition`, `str.upper`,
`str.encode`) are modelled below for the ASCII whitespace set
`' ', '\t', '\n', '\r', '\x0b', '\x0c'`; `str.upper` is modelled by
`Char.toUpper`, which performs exactly the ASCII case mapping the protocol
data uses.  Bytes are modelled as `Nat` (each < 256 by construction of the
UTF-8 encoder).
-/

namespace Airc

/-- The ASCII whitespace characters recognised by Python's `str.strip()` and
`str.split()` on protocol text. -/
def isPySpace (c : Char) : Bool :=
  c = ' ' || c = '\t' || c = '\n' || c = '\r' || c = '\x0b' || c = '\x0c'

/-- Python `s.strip()`: drop leading and trailing whitespace. -/
def pyStrip (s : List Char) : List Char :=
  ((s.dropWhile isPySpace).reverse.dropWhile isPySpace).reverse

/-- Worker for `pySplitWs`, accumulating the current token in reverse. -/
def splitWsAux : List Char → List Char → List (List Char)
  | [], acc => if acc = [] then [] else [acc.reverse]
  | c :: cs, acc =>
      if isPySpace c then
        if acc = [] then splitWsAux cs [] else acc.reverse :: splitWsAux cs []
      else
        splitWsAux cs (c :: acc)

/-- Python `s.split()` with no separator: split on runs of whitespace and
drop empty tokens. -/
def pySplitWs (s : List Char) : List (List Char) :=
  splitWsAux s []

/-- Split at the first occurrence of the character `sep`; `none` when `sep`
does not occur.  Models Python `s.split(sep, 1)` yielding two pieces (the
source unpacks the result into two variables, which raises `ValueError`
when the separator is absent — that is the `none` case). -/
def splitAtFirstChar (sep : Char) : List Char → Option (List Char × List Char)
  | [] => none
  | c :: cs =>
      if c = sep then some ([], cs)
      else
        match splitAtFirstChar sep cs with
        | none => none
        | some (a, b) => some (c :: a, b)

/-- Python `s.partition(sep)` for a one-character separator, returning the
text before and after the first occurrence; when `sep` is absent the whole
string is the first component and the second is empty, exactly as in
Python (`(s, '', '')`). -/
def pyPartition (sep : Char) (s : List Char) : List Char × List Char :=
  match splitAtFirstChar sep s with
  | none => (s, [])
  | some (a, b) => (a, b)

/-- Split at the first occurrence of the two-character sequence `' :'`;
`none` when it does not occur.  Models `' :' in line` together with
`line.split(' :', 1)`. -/
def splitAtSpaceColon : List Char → Option (List Char × List Char)
  | [] => none
  | [_] => none
  | c1 :: c2 :: rest =>
      if c1 = ' ' ∧ c2 = ':' then some ([], rest)
      else
        match splitAtSpaceColon (c2 :: rest) with
        | none => none
        | some (a, b) => some (c1 :: a, b)

/-- Python `s.upper()` on protocol text (ASCII case mapping, per character). -/
def pyUpper (s : List Char) : List Char :=
  s.map Char.toUpper

/-- The prefix of an IRC message (`Prefix` in the source, the
`nick!user@host` sender annotation). -/
structure Pfx where
  nick : List Char
  user : Option (List Char)
  host : Option (List Char)
deriving DecidableEq, Repr

/-- A parsed IRC message (`Message` in the source): optional sender
annotation `pfx` (field `prefix` in the source), a command, and parameters. -/
structure Message where
  pfx : Option Pfx
  command : List Char
  params : List (List Char)
deriving DecidableEq, Repr

/-- The prefix phase of `Message.parse`, applied to the stripped line: when
the line starts with `:`, split off the prefix token at the first space and
parse it as `nick[!user][@host]` via the two `partition` calls; `user or
None` and `host or None` turn empty segments into `none`.  The result is
the parsed prefix together with the rest of the line; `none` models the
`ValueError` raised by unpacking `line.split(' ', 1)` when there is no
space. -/
def pfxStep (line1 : List Char) : Option (Option Pfx × List Char) :=
  if line1.head? = some ':' then
    match splitAtFirstChar ' ' line1 with
    | none => none
    | some (prefixStr, rest) =>
        let core := prefixStr.drop 1
        let p1 := pyPartition '!' core
        let p2 := pyPartition '@' p1.2
        some (some ⟨p1.1,
                    if p2.1 = [] then none else some p2.1,
                    if p2.2 = [] then none else some p2.2⟩, rest)
  else some (none, line1)

/-- The parameter phase of `Message.parse`: split off the trailing
parameter at the first `' :'` if there is one, whitespace-split the rest. -/
def paramsOf (line2 : List Char) : List (List Char) :=
  match splitAtSpaceColon line2 with
  | some pt => pySplitWs pt.1 ++ [pt.2]
  | none => pySplitWs line2

/-- `Message.parse` from the source: strip, prefix phase, parameter phase,
then `params.pop(0)` becomes the upper-cased command.  `none` models the
two ways the Python code raises: the `ValueError` in `pfxStep` and the
`IndexError` of `pop(0)` on an empty parameter list. -/
def Message.parse (line0 : List Char) : Option Message :=
  match pfxStep (pyStrip line0) with
  | none => none
  | some (pfx, line2) =>
      match paramsOf line2 with
      | [] => none
      | cmd :: rest => some ⟨pfx, pyUpper cmd, rest⟩

/-- The remainder of a line once `parse` has stripped it and consumed the
prefix token (the value of the local variable `line` at the `' :'` test). -/
def postPfxRemainder (line0 : List Char) : Option (List Char) :=
  (pfxStep (pyStrip line0)).map Prod.snd

/-- UTF-8 encoding of one character, as byte values. -/
def utf8Char (c : Char) : List Nat :=
  let n := c.toNat
  if n < 128 then [n]
  else if n < 2048 then [192 + n / 64, 128 + n % 64]
  else if n < 65536 then [224 + n / 4096, 128 + (n / 64) % 64, 128 + n % 64]
  else [240 + n / 262144, 128 + (n / 4096) % 64, 128 + (n / 64) % 64,
        128 + n % 64]

/-- Python `s.encode('utf-8')`, as a list of byte values. -/
def utf8 (s : List Char) : List Nat :=
  (s.map utf8Char).flatten

/-- The part of the client's connection record that the lifecycle claims
are about: whether `_writer` is non-null and the `_is_connected` flag. -/
structure ClientState where
  writerPresent : Bool
  connected : Bool
deriving DecidableEq, Repr

/-- The record as `Client.__init__` leaves it: `_writer = None`,
`_is_connected = False`. -/
def initState : ClientState := ⟨false, false⟩

/-- `Client.send_raw`.  Returns the (unchanged) connection record, the list
of chunks written to the transport, and whether the `not connected` error
was logged.  The method assigns no attribute, so the record comes back
unchanged; the guard is the truthiness test `if self._writer and
self._is_connected`. -/
def sendRaw (st : ClientState) (data : List Char) :
    ClientState × List (List Nat) × Bool :=
  if st.writerPresent ∧ st.connected then
    let encoded := utf8 data
    let encoded := if encoded.length > 500 then encoded.take 500 else encoded
    (st, [encoded ++ [13, 10]], false)
  else
    (st, [], true)

/-- A registered handler: the built-in `_handle_ping` registered in
`__init__`, or an externally registered callback identified by a number. -/
inductive Handler
  | builtinPing
  | user (id : Nat)
deriving DecidableEq, Repr

/-- The handler registry `self._handlers`, a `defaultdict(list)` modelled as
an association list from command keys to handler lists. -/
def Registry := List (List Char × List Handler)

/-- `self._handlers.get(k, [])`. -/
def lookupH (reg : Registry) (k : List Char) : List Handler :=
  match reg.find? (fun p => decide (p.1 = k)) with
  | some p => p.2
  | none => []

/-- `self._handlers[k].append(h)` on the `defaultdict`: append to the
existing list, or create the entry with a one-element list. -/
def addHandler : Registry → List Char → Handler → Registry
  | [], k, h => [(k, [h])]
  | (k', hs) :: rest, k, h =>
      if k' = k then (k', hs ++ [h]) :: rest
      else (k', hs) :: addHandler rest k h

/-- The decorator `Client.on(command)` applied to a handler: it stores the
handler under `command.upper()`. -/
def onReg (reg : Registry) (command : List Char) (h : Handler) : Registry :=
  addHandler reg (pyUpper command) h

/-- The registry as `Client.__init__` leaves it:
`self.on('PING')(self._handle_ping)`. -/
def initRegistry : Registry :=
  onReg [] (String.toList "PING") Handler.builtinPing

/-- `Client._dispatch`: the handlers scheduled (via `asyncio.create_task`)
for a message, in scheduling order — first the list for the message's
command, then the list under the wildcard key `'*'`. -/
def dispatchSchedule (reg : Registry) (m : Message) : List Handler :=
  lookupH reg m.command ++ lookupH reg ['*']

/-- `Client._handle_ping`: the string handed to `send_raw`, namely
`"PONG :" + message.params[0]`.  `none` models the `IndexError` raised
inside the handler task when `params` is empty (no send happens then). -/
def handlePing (m : Message) : Option (List Char) :=
  match m.params with
  | p :: _ => some (String.toList "PONG :" ++ p)
  | [] => none

/-- The transport chunks written when one scheduled handler runs on a
client whose connection record is `st`.  Externally registered handlers
are outside this core and write nothing through the built-in path. -/
def handlerSends (st : ClientState) (h : Handler) (m : Message) :
    List (List Nat) :=
  match h with
  | Handler.builtinPing =>
      match handlePing m with
      | some s => (sendRaw st s).2.1
      | none => []
  | Handler.user _ => []

/-- All transport chunks written by the handlers `_dispatch` schedules for
a message, in scheduling order. -/
def dispatchSends (reg : Registry) (st : ClientState) (m : Message) :
    List (List Nat) :=
  ((dispatchSchedule reg m).map (fun h => handlerSends st h m)).flatten

/-- Connection records reachable through the lifecycle in `Client.connect`
and `Client.quit`:
* `init` — the record from `__init__`;
* `connOk` — a successful `open_connection` assigns `_writer` and then
  sets `_is_connected = True`;
* `connFail` — a failed `open_connection` assigns nothing;
* `down` — the `finally` block sets `_is_connected = False` and closes
  `_writer` if present, but never clears it;
* `quitStep` — `quit` sends and closes the writer, assigning neither
  `_writer` nor `_is_connected`. -/
inductive Reach : ClientState → Prop
  | init : Reach initState
  | connOk : ∀ st, Reach st → Reach ⟨true, true⟩
  | connFail : ∀ st, Reach st → Reach st
  | down : ∀ st, Reach st → Reach ⟨st.writerPresent, false⟩
  | quitStep : ∀ st, Reach st → Reach st

/-- One observable event of `Client._read_loop` for a received line: the
parsed message was handed to `_dispatch`, or the failure was caught and
logged by the `except` clause. -/
inductive LoopEv
  | dispatched (m : Message)
  | parseFailed (line : List Char)
deriving DecidableEq, Repr

/-- `Client._read_loop` over a finite trace of reads.  Each element is the
decoded text of one `readline` result (`decode('utf-8', errors='replace')`
turns non-empty bytes into non-empty text, so a zero-length read is
exactly the element `[]`).  Returns the events in order and whether the
loop exited through the `if not raw_line: break` branch; `false` means the
trace ran out with the loop still reading. -/
def readLoop : List (List Char) → List LoopEv × Bool
  | [] => ([], false)
  | l :: rest =>
      if l = [] then ([], true)
      else
        let stripped := pyStrip l
        let r := readLoop rest
        match Message.parse stripped with
        | some m => (LoopEv.dispatched m :: r.1, r.2)
        | none => (LoopEv.parseFailed stripped :: r.1, r.2)

/-- What `_read_loop` does with one non-empty line: dispatch the parsed
message, or log the caught failure. -/
def procLine (l : List Char) : LoopEv :=
  match Message.parse (pyStrip l) with
  | some m => LoopEv.dispatched m
  | none => LoopEv.parseFailed (pyStrip l)

/-! ### Helper lemmas -/

theorem char_toNat_ofNat (n : Nat) (h : n.isValidChar) :
    (Char.ofNat n).toNat = n := by
  have h32 : n < 2 ^ 32 := by
    rcases h with h | ⟨_, h⟩ <;> omega
  simp [Char.ofNat, h, Char.ofNatAux, Char.toNat, UInt32.toNat,
    BitVec.toNat_ofNatLt]

theorem toUpper_idem (c : Char) :
    Char.toUpper (Char.toUpper c) = Char.toUpper c := by
  by_cases h : c.toNat ≥ 97 ∧ c.toNat ≤ 122
  · have h1 : Char.toUpper c = Char.ofNat (c.toNat - 32) := by
      simp only [Char.toUpper, if_pos h]
    have hv : Nat.isValidChar (c.toNat - 32) := Or.inl (by omega)
    have h2 : (Char.ofNat (c.toNat - 32)).toNat = c.toNat - 32 :=
      char_toNat_ofNat _ hv
    rw [h1]
    simp only [Char.toUpper, h2]
    have hno : ¬ (c.toNat - 32 ≥ 97 ∧ c.toNat - 32 ≤ 122) := by omega
    rw [if_neg hno]
  · have h1 : Char.toUpper c = c := by
      simp only [Char.toUpper, if_neg h]
    rw [h1, h1]

theorem pyUpper_idem (s : List Char) : pyUpper (pyUpper s) = pyUpper s := by
  unfold pyUpper
  rw [List.map_map]
  exact List.map_congr_left (fun a _ => toUpper_idem a)

theorem splitAtFirstChar_cons_ne (sep c : Char) (cs : List Char)
    (h : c ≠ sep) :
    splitAtFirstChar sep (c :: cs) =
      (splitAtFirstChar sep cs).map (fun ab => (c :: ab.1, ab.2)) := by
  rw [splitAtFirstChar, if_neg h]
  cases splitAtFirstChar sep cs <;> rfl

theorem splitAtFirstChar_not_mem (sep : Char) (s : List Char)
    (h : sep ∉ s) : splitAtFirstChar sep s = none := by
  induction s with
  | nil => rfl
  | cons c cs ih =>
      have hc : c ≠ sep := fun he => h (he ▸ List.mem_cons_self c cs)
      rw [splitAtFirstChar_cons_ne sep c cs hc,
        ih (fun hm => h (List.mem_cons_of_mem c hm))]
      rfl

theorem splitAtFirstChar_append (sep : Char) (p rest : List Char)
    (h : sep ∉ p) :
    splitAtFirstChar sep (p ++ sep :: rest) = some (p, rest) := by
  induction p with
  | nil => simp [splitAtFirstChar]
  | cons c cs ih =>
      have hc : c ≠ sep := fun he => h (he ▸ List.mem_cons_self c cs)
      rw [List.cons_append,
        splitAtFirstChar_cons_ne sep c (cs ++ sep :: rest) hc,
        ih (fun hm => h (List.mem_cons_of_mem c hm))]
      rfl

theorem pyPartition_not_mem (sep : Char) (s : List Char) (h : sep ∉ s) :
    pyPartition sep s = (s, []) := by
  rw [pyPartition, splitAtFirstChar_not_mem sep s h]

theorem pyPartition_fst_cons (sep c : Char) (cs : List Char) (h : c ≠ sep) :
    ∃ t, (pyPartition sep (c :: cs)).1 = c :: t := by
  rw [pyPartition, splitAtFirstChar_cons_ne sep c cs h]
  cases splitAtFirstChar sep cs with
  | none => exact ⟨cs, rfl⟩
  | some ab => exact ⟨ab.1, rfl⟩

theorem splitWsAux_ne_nil (s : List Char) : ∀ (acc t : List Char),
    t ∈ splitWsAux s acc → t ≠ [] := by
  induction s with
  | nil =>
      intro acc t ht
      rw [splitWsAux] at ht
      by_cases ha : acc = []
      · simp [ha] at ht
      · simp only [ha, if_false, List.mem_singleton] at ht
        subst ht
        intro hrev
        exact ha (by simpa using congrArg List.reverse hrev)
  | cons c cs ih =>
      intro acc t ht
      rw [splitWsAux] at ht
      by_cases hc : isPySpace c
      · simp only [hc, if_true] at ht
        by_cases ha : acc = []
        · simp only [ha, if_true] at ht
          exact ih [] t ht
        · simp only [ha, if_false] at ht
          rcases List.mem_cons.mp ht with h1 | h2
          · subst h1
            intro hrev
            exact ha (by simpa using congrArg List.reverse hrev)
          · exact ih [] t h2
      · simp only [hc, if_false] at ht
        exact ih (c :: acc) t ht

theorem pySplitWs_ne_nil (s t : List Char) (ht : t ∈ pySplitWs s) :
    t ≠ [] :=
  splitWsAux_ne_nil s [] t ht

theorem lookupH_addHandler_same (reg : Registry) (k : List Char)
    (h : Handler) : lookupH (addHandler reg k h) k = lookupH reg k ++ [h] := by
  induction reg with
  | nil => simp [lookupH, addHandler, List.find?]
  | cons e rest ih =>
      obtain ⟨k', hs⟩ := e
      by_cases hk : k' = k
      · subst hk
        simp [lookupH, addHandler, List.find?]
      · rw [addHandler, if_neg hk]
        have hd : (decide (k' = k)) = false := by simp [hk]
        simp only [lookupH, List.find?, hd] at ih ⊢
        exact ih

theorem lookupH_addHandler_other (reg : Registry) (k k2 : List Char)
    (h : Handler) (hne : k2 ≠ k) :
    lookupH (addHandler reg k h) k2 = lookupH reg k2 := by
  induction reg with
  | nil =>
      have hd : (decide (k = k2)) = false := by simp [Ne.symm hne]
      simp [lookupH, addHandler, List.find?, hd]
  | cons e rest ih =>
      obtain ⟨k', hs⟩ := e
      by_cases hk : k' = k
      · subst hk
        have hd : (decide (k' = k2)) = false := by simp [Ne.symm hne]
        simp [lookupH, addHandler, List.find?, hd]
      · rw [addHandler, if_neg hk]
        by_cases hk2 : k' = k2
        · subst hk2
          simp [lookupH, List.find?]
        · have hd : (decide (k' = k2)) = false := by simp [hk2]
          simp only [lookupH, List.find?, hd] at ih ⊢
          exact ih

theorem reach_conn_writer (st : ClientState) (h : Reach st)
    (hc : st.connected = true) : st.writerPresent = true := by
  induction h with
  | init => exact absurd hc (by simp [initState])
  | connOk st' _ _ => rfl
  | connFail st' _ ih => exact ih hc
  | down st' _ _ => exact absurd hc (by simp)
  | quitStep st' _ ih => exact ih hc

/-! ### Claim theorems: parser -/

/-- Claim C1 (corrected).  As stated the claim fails: when the text before
the first `' :'` of the post-prefix remainder contains no token, the
trailing text itself is popped as the command, so it is not returned as a
final parameter.  At the line `":n  :x y"` the remainder is `" :x y"`, the
trailing part is `"x y"`, yet the returned message has no parameters at
all (its command is `"X Y"`). -/
theorem parse_trailing_counterexample :
    postPfxRemainder (String.toList ":n  :x y") =
      some (String.toList " :x y") ∧
    splitAtSpaceColon (String.toList " :x y") =
      some ([], String.toList "x y") ∧
    Message.parse (String.toList ":n  :x y") =
      some ⟨some ⟨String.toList "n", none, none⟩, String.toList "X Y", []⟩ ∧
    (Message.mk (some ⟨String.toList "n", none, none⟩)
        (String.toList "X Y") []).params.getLast? ≠
      some (String.toList "x y") := by
  refine ⟨by decide, by decide, by decide, by decide⟩

/-- Claim C1 (amended).  For every input line whose post-prefix remainder
contains `' :'`, provided the text before the first `' :'` contains at
least one whitespace token, the first such token (upper-cased) becomes the
command and the returned parameters are the remaining tokens followed by
the trailing text verbatim — never word-split, even when it contains
spaces or is empty. -/
theorem parse_trailing_verbatim (line0 line2 before trailing cmd : List Char)
    (ts : List (List Char))
    (hrem : postPfxRemainder line0 = some line2)
    (hsc : splitAtSpaceColon line2 = some (before, trailing))
    (htok : pySplitWs before = cmd :: ts) :
    ∃ pf, Message.parse line0 = some ⟨pf, pyUpper cmd, ts ++ [trailing]⟩ := by
  cases hstep : pfxStep (pyStrip line0) with
  | none =>
      rw [postPfxRemainder, hstep] at hrem
      cases hrem
  | some pr =>
      obtain ⟨pf0, l2⟩ := pr
      rw [postPfxRemainder, hstep, Option.map_some'] at hrem
      have hl2 : l2 = line2 := by
        injection hrem
      subst hl2
      refine ⟨pf0, ?_⟩
      rw [Message.parse, hstep]
      dsimp only
      have hp : paramsOf l2 = cmd :: (ts ++ [trailing]) := by
        rw [paramsOf, hsc]
        dsimp only
        rw [htok]
        rfl
      rw [hp]

/-- Witness for `parse_trailing_verbatim` at the line
`"CMD a :hello world"`. -/
theorem parse_trailing_verbatim_witness :
    postPfxRemainder (String.toList "CMD a :hello world") =
      some (String.toList "CMD a :hello world") ∧
    splitAtSpaceColon (String.toList "CMD a :hello world") =
      some (String.toList "CMD a", String.toList "hello world") ∧
    pySplitWs (String.toList "CMD a") =
      [String.toList "CMD", String.toList "a"] ∧
    ∃ pf, Message.parse (String.toList "CMD a :hello world") =
      some ⟨pf, pyUpper (String.toList "CMD"),
            [String.toList "a"] ++ [String.toList "hello world"]⟩ :=
  ⟨by decide, by decide, by decide,
   parse_trailing_verbatim (String.toList "CMD a :hello world")
     (String.toList "CMD a :hello world") (String.toList "CMD a")
     (String.toList "hello world") (String.toList "CMD") [String.toList "a"]
     (by decide) (by decide) (by decide)⟩

/-- Claim C2 (corrected).  As stated the claim fails: the command of a
returned message can be the empty string.  At the line `":nick  :"` the
post-prefix remainder is `" :"`, whose only parameter is the empty
trailing string, so `pop(0)` makes the empty string the command. -/
theorem parse_command_empty_counterexample :
    (Message.parse (String.toList ":nick  :")).map Message.command =
      some [] := by
  decide

/-- Claim C2 (amended).  For every line on which `parse` returns a message,
the command equals its own upper-cased form; it is non-empty except in the
degenerate case in which the post-prefix remainder has only whitespace
before its first `' :'` and an empty trailing part. -/
theorem parse_command_uppercase (line0 : List Char) (m : Message)
    (hm : Message.parse line0 = some m) :
    pyUpper m.command = m.command ∧
    (m.command = [] →
      ∃ line2 w, postPfxRemainder line0 = some line2 ∧
        splitAtSpaceColon line2 = some (w, []) ∧ pySplitWs w = []) := by
  cases hstep : pfxStep (pyStrip line0) with
  | none =>
      rw [Message.parse, hstep] at hm
      cases hm
  | some pr =>
      obtain ⟨pf0, l2⟩ := pr
      rw [Message.parse, hstep] at hm
      dsimp only at hm
      cases hp : paramsOf l2 with
      | nil =>
          rw [hp] at hm
          cases hm
      | cons cmd rest =>
          rw [hp] at hm
          have hm' : Message.mk pf0 (pyUpper cmd) rest = m := by
            injection hm
          subst hm'
          refine ⟨pyUpper_idem cmd, ?_⟩
          intro hc
          have hcmd : cmd = [] := by
            simpa [pyUpper] using List.map_eq_nil_iff.mp hc
          subst hcmd
          rw [paramsOf] at hp
          cases hsc : splitAtSpaceColon l2 with
          | none =>
              rw [hsc] at hp
              dsimp only at hp
              have : ([] : List Char) ∈ pySplitWs l2 := by
                rw [hp]
                exact List.mem_cons_self _ _
              exact absurd rfl (pySplitWs_ne_nil l2 [] this)
          | some wt =>
              obtain ⟨w, tr⟩ := wt
              rw [hsc] at hp
              dsimp only at hp
              cases hw : pySplitWs w with
              | nil =>
                  rw [hw, List.nil_append] at hp
                  injection hp with h1 h2
                  subst h1
                  exact ⟨l2, w, by rw [postPfxRemainder, hstep]; rfl,
                    hsc, hw⟩
              | cons c cs =>
                  rw [hw, List.cons_append] at hp
                  injection hp with h1 h2
                  have hmem : c ∈ pySplitWs w := by
                    rw [hw]
                    exact List.mem_cons_self _ _
                  exact absurd h1 (pySplitWs_ne_nil w c hmem)

/-- Witness for `parse_command_uppercase` at the line
`":nick!user@host privmsg #chan :hello"`. -/
theorem parse_command_uppercase_witness :
    Message.parse (String.toList ":nick!user@host privmsg #chan :hello") =
      some ⟨some ⟨String.toList "nick", some (String.toList "user"),
                 some (String.toList "host")⟩,
            String.toList "PRIVMSG",
            [String.toList "#chan", String.toList "hello"]⟩ ∧
    pyUpper (String.toList "PRIVMSG") = String.toList "PRIVMSG" :=
  ⟨by decide,
   (parse_command_uppercase
      (String.toList ":nick!user@host privmsg #chan :hello")
      ⟨some ⟨String.toList "nick", some (String.toList "user"),
             some (String.toList "host")⟩,
       String.toList "PRIVMSG",
       [String.toList "#chan", String.toList "hello"]⟩ (by decide)).1⟩

theorem pfxStep_colon (s : List Char) :
    pfxStep (':' :: s) =
      (splitAtFirstChar ' ' s).map (fun ab =>
        let p1 := pyPartition '!' ab.1
        let p2 := pyPartition '@' p1.2
        (some ⟨p1.1, if p2.1 = [] then none else some p2.1,
               if p2.2 = [] then none else some p2.2⟩, ab.2)) := by
  rw [pfxStep, if_pos (show (':' :: s).head? = some ':' from rfl),
    splitAtFirstChar_cons_ne ' ' ':' s (by decide)]
  cases splitAtFirstChar ' ' s with
  | none => rfl
  | some ab => rfl

/-- Claim C9 (corrected).  As stated the claim fails: at the line
`": PING"` the prefix token is just `":"`, so `parse` returns a message
whose prefix is present but has an empty nickname. -/
theorem pfx_nick_empty_counterexample :
    ((Message.parse (String.toList ": PING")).bind Message.pfx).map
      Pfx.nick = some [] := by
  decide

/-- Claim C9 (amended).  For every line on which `parse` returns a message
with a prefix, the nickname is non-empty provided the stripped line's
character right after the leading `:` is neither a space (which would end
the prefix token immediately) nor `!` (which would end the nickname
segment immediately). -/
theorem pfx_nick_nonempty (line0 : List Char) (c : Char) (rest : List Char)
    (m : Message) (p : Pfx)
    (hline : pyStrip line0 = ':' :: c :: rest)
    (hc1 : c ≠ ' ') (hc2 : c ≠ '!')
    (hm : Message.parse line0 = some m) (hp : m.pfx = some p) :
    p.nick ≠ [] := by
  rw [Message.parse, hline, pfxStep_colon,
    splitAtFirstChar_cons_ne ' ' c rest hc1] at hm
  cases hr : splitAtFirstChar ' ' rest with
  | none =>
      rw [hr] at hm
      cases hm
  | some ab =>
      obtain ⟨a, b⟩ := ab
      rw [hr] at hm
      dsimp only [Option.map_some'] at hm
      obtain ⟨t, ht⟩ := pyPartition_fst_cons '!' c a hc2
      cases hpar : paramsOf b with
      | nil =>
          rw [hpar] at hm
          cases hm
      | cons cmd ps =>
          rw [hpar] at hm
          injection hm with hm1
          rw [← hm1] at hp
          dsimp only at hp
          injection hp with hp1
          rw [← hp1]
          dsimp only
          rw [ht]
          exact List.cons_ne_nil c t

/-- Witness for `pfx_nick_nonempty` at the line `":nick!user@host HI"`. -/
theorem pfx_nick_nonempty_witness :
    pyStrip (String.toList ":nick!user@host HI") =
      ':' :: 'n' :: String.toList "ick!user@host HI" ∧
    Message.parse (String.toList ":nick!user@host HI") =
      some ⟨some ⟨String.toList "nick", some (String.toList "user"),
                 some (String.toList "host")⟩, String.toList "HI", []⟩ ∧
    (Pfx.mk (String.toList "nick") (some (String.toList "user"))
        (some (String.toList "host"))).nick ≠ [] :=
  ⟨by decide, by decide,
   pfx_nick_nonempty (String.toList ":nick!user@host HI") 'n'
     (String.toList "ick!user@host HI")
     ⟨some ⟨String.toList "nick", some (String.toList "user"),
            some (String.toList "host")⟩, String.toList "HI", []⟩
     ⟨String.toList "nick", some (String.toList "user"),
      some (String.toList "host")⟩
     (by decide) (by decide) (by decide) (by decide) (by decide)⟩

/-- Claim C10 (confirmed).  A prefix token containing no `!` — for example
`nick@host` — becomes in full the nickname, with user and host unset: the
`@` is only examined inside the remainder of a `!` split. -/
theorem pfx_no_bang_whole_nick (line0 p rest : List Char) (m : Message)
    (hline : pyStrip line0 = ':' :: (p ++ ' ' :: rest))
    (hsp : ' ' ∉ p) (hbang : '!' ∉ p)
    (hm : Message.parse line0 = some m) :
    m.pfx = some ⟨p, none, none⟩ := by
  rw [Message.parse, hline, pfxStep_colon,
    splitAtFirstChar_append ' ' p rest hsp] at hm
  dsimp only [Option.map_some'] at hm
  rw [pyPartition_not_mem '!' p hbang] at hm
  cases hpar : paramsOf rest with
  | nil =>
      rw [hpar] at hm
      cases hm
  | cons cmd ps =>
      rw [hpar] at hm
      injection hm with hm1
      rw [← hm1]
      rfl

/-- Witness for `pfx_no_bang_whole_nick` at the line `":nick@host CMD"`. -/
theorem pfx_no_bang_whole_nick_witness :
    pyStrip (String.toList ":nick@host CMD") =
      ':' :: (String.toList "nick@host" ++ ' ' :: String.toList "CMD") ∧
    (Message.mk (some ⟨String.toList "nick@host", none, none⟩)
        (String.toList "CMD") []).pfx =
      some ⟨String.toList "nick@host", none, none⟩ :=
  ⟨by decide,
   pfx_no_bang_whole_nick (String.toList ":nick@host CMD")
     (String.toList "nick@host") (String.toList "CMD")
     ⟨some ⟨String.toList "nick@host", none, none⟩, String.toList "CMD", []⟩
     (by decide) (by decide) (by decide) (by decide)⟩

/-! ### Claim theorems: connection lifecycle -/

/-- Claim C3 (corrected).  As stated the claim fails: the `finally` block
of `connect` clears `_is_connected` but never sets `_writer` back to
`None`, so after the first teardown following a successful connect the
record has a non-null transport handle while `connected` is false. -/
theorem writer_iff_connected_counterexample :
    Reach ⟨true, false⟩ ∧
    (ClientState.mk true false).writerPresent = true ∧
    (ClientState.mk true false).connected = false :=
  ⟨Reach.down ⟨true, true⟩ (Reach.connOk initState Reach.init), rfl, rfl⟩

/-- Claim C3 (amended).  At every reachable point of the lifecycle the
forward direction holds: whenever `connected` is true the transport handle
is non-null (it is assigned before the flag is set and never cleared).
The converse fails after a teardown, which leaves the closed handle in
place. -/
theorem connected_implies_writer (st : ClientState) (h : Reach st)
    (hc : st.connected = true) : st.writerPresent = true :=
  reach_conn_writer st h hc

/-- Witness for `connected_implies_writer` right after a successful
connect. -/
theorem connected_implies_writer_witness :
    Reach ⟨true, true⟩ ∧ (ClientState.mk true true).writerPresent = true :=
  ⟨Reach.connOk initState Reach.init,
   connected_implies_writer ⟨true, true⟩
     (Reach.connOk initState Reach.init) rfl⟩

/-! ### Claim theorems: dispatch and the built-in PING handler -/

/-- Claim C4 (confirmed).  On a connected client with the registry as
`__init__` leaves it, dispatching the parsed message of `"PING :abc"`
schedules exactly the built-in ping handler, and that handler emits
exactly one outbound line whose pre-terminator payload is the encoding of
`"PONG :abc"`. -/
theorem ping_pong_roundtrip :
    Message.parse (String.toList "PING :abc") =
      some ⟨none, String.toList "PING", [String.toList "abc"]⟩ ∧
    dispatchSchedule initRegistry
      ⟨none, String.toList "PING", [String.toList "abc"]⟩ =
      [Handler.builtinPing] ∧
    dispatchSends initRegistry ⟨true, true⟩
      ⟨none, String.toList "PING", [String.toList "abc"]⟩ =
      [utf8 (String.toList "PONG :abc") ++ [13, 10]] := by
  refine ⟨by decide, by decide, by decide⟩

/-! ### Claim theorems: send primitives -/

/-- Claim C5 (confirmed).  On a reachable connected client, `send_raw`
writes exactly one chunk: the full UTF-8 encoding of the input followed by
the terminator when the encoding is at most 500 bytes, and exactly the
first 500 bytes of the encoding followed by the terminator when it is
longer. -/
theorem send_raw_truncation (st : ClientState) (data : List Char)
    (hR : Reach st) (hc : st.connected = true) :
    ((utf8 data).length ≤ 500 →
      (sendRaw st data).2.1 = [utf8 data ++ [13, 10]]) ∧
    (500 < (utf8 data).length →
      (sendRaw st data).2.1 = [(utf8 data).take 500 ++ [13, 10]] ∧
      ((utf8 data).take 500).length = 500) := by
  have hw : st.writerPresent = true := reach_conn_writer st hR hc
  rw [sendRaw, if_pos ⟨hw, hc⟩]
  dsimp only
  constructor
  · intro hle
    have : ¬ (utf8 data).length > 500 := by omega
    rw [if_neg this]
  · intro hgt
    rw [if_pos hgt]
    refine ⟨rfl, ?_⟩
    rw [List.length_take]
    omega

set_option maxRecDepth 8192 in
/-- Witness for `send_raw_truncation` on an input whose encoding is 501
bytes long: the written payload is its 500-byte front. -/
theorem send_raw_truncation_witness :
    Reach ⟨true, true⟩ ∧
    500 < (utf8 (List.replicate 501 'a')).length ∧
    (sendRaw ⟨true, true⟩ (List.replicate 501 'a')).2.1 =
      [(utf8 (List.replicate 501 'a')).take 500 ++ [13, 10]] := by
  have hR : Reach ⟨true, true⟩ := Reach.connOk initState Reach.init
  have hlen : (utf8 (List.replicate 501 'a')).length = 501 := by decide
  refine ⟨hR, by rw [hlen]; omega, ?_⟩
  exact ((send_raw_truncation ⟨true, true⟩ (List.replicate 501 'a') hR
    rfl).2 (by rw [hlen]; omega)).1

/-- Claim C7 (confirmed).  Calling `send_raw` while not connected writes
nothing, leaves the connection record unchanged, raises nothing (the model
is total), and logs the `not connected` error. -/
theorem send_raw_disconnected (st : ClientState) (data : List Char)
    (hc : st.connected = false) : sendRaw st data = (st, [], true) := by
  rw [sendRaw, if_neg]
  intro hand
  rw [hc] at hand
  exact Bool.false_ne_true hand.2

/-- Witness for `send_raw_disconnected` on a record that still holds a
stale writer. -/
theorem send_raw_disconnected_witness :
    (ClientState.mk true false).connected = false ∧
    sendRaw ⟨true, false⟩ (String.toList "QUIT :bye") =
      (⟨true, false⟩, [], true) :=
  ⟨rfl, send_raw_disconnected ⟨true, false⟩ (String.toList "QUIT :bye") rfl⟩

/-- Claim C6 (corrected).  As stated the claim fails for a message whose
command is the wildcard key itself: `"* hi"` parses to a message with
command `"*"`, and `_dispatch` then walks the `'*'` list twice, so a
wildcard handler registered once is scheduled twice. -/
theorem dispatch_wildcard_twice_counterexample :
    Message.parse (String.toList "* hi") =
      some ⟨none, ['*'], [String.toList "hi"]⟩ ∧
    (lookupH (onReg initRegistry (String.toList "*") (Handler.user 0))
        ['*']).count (Handler.user 0) = 1 ∧
    (dispatchSchedule
        (onReg initRegistry (String.toList "*") (Handler.user 0))
        ⟨none, ['*'], [String.toList "hi"]⟩).count (Handler.user 0) = 2 := by
  refine ⟨by decide, by decide, by decide⟩

/-- Claim C6 (amended).  For every message whose command is not the
wildcard key `'*'` itself, dispatch schedules the handlers registered for
the command followed by the wildcard handlers, in registration order; a
handler registered exactly once across those two lists is scheduled
exactly once; registration stores under the upper-cased command (hence
case-insensitive matching against parse's upper-cased commands) by
appending, and registering under a non-wildcard key leaves the wildcard
list untouched. -/
theorem dispatch_schedule_spec (reg : Registry) (m : Message) (h0 : Handler)
    (c : List Char) (hc : m.command ≠ ['*']) :
    dispatchSchedule reg m = lookupH reg m.command ++ lookupH reg ['*'] ∧
    ((lookupH reg m.command).count h0 + (lookupH reg ['*']).count h0 = 1 →
      (dispatchSchedule reg m).count h0 = 1) ∧
    lookupH (onReg reg c h0) (pyUpper c) = lookupH reg (pyUpper c) ++ [h0] ∧
    (pyUpper c ≠ ['*'] →
      lookupH (onReg reg c h0) ['*'] = lookupH reg ['*']) := by
  refine ⟨rfl, ?_, ?_, ?_⟩
  · intro h1
    rw [dispatchSchedule, List.count_append]
    exact h1
  · exact lookupH_addHandler_same reg (pyUpper c) h0
  · intro hne
    exact lookupH_addHandler_other reg (pyUpper c) ['*'] h0 hne.symm

/-- Witness for `dispatch_schedule_spec`: two handlers registered for the
same command under different spellings; the first is scheduled exactly
once for a dispatched `PRIVMSG` message. -/
theorem dispatch_schedule_spec_witness :
    String.toList "PRIVMSG" ≠ ['*'] ∧
    (dispatchSchedule
        (onReg (onReg initRegistry (String.toList "privmsg")
            (Handler.user 1)) (String.toList "PRIVMSG") (Handler.user 2))
        ⟨none, String.toList "PRIVMSG",
         [String.toList "#chan", String.toList "hi"]⟩).count
      (Handler.user 1) = 1 :=
  ⟨by decide,
   (dispatch_schedule_spec
      (onReg (onReg initRegistry (String.toList "privmsg")
          (Handler.user 1)) (String.toList "PRIVMSG") (Handler.user 2))
      ⟨none, String.toList "PRIVMSG",
       [String.toList "#chan", String.toList "hi"]⟩
      (Handler.user 1) (String.toList "privmsg") (by decide)).2.1
     (by decide)⟩

/-! ### Claim theorems: read loop -/

/-- Claim C8 (confirmed).  Over any finite read trace, the loop exits
through the closed-connection branch exactly when a zero-length read
occurs in the trace, and every line before the first zero-length read is
processed — parsed and dispatched when parsing succeeds, caught and logged
when it fails — so a per-line failure never terminates the loop. -/
theorem read_loop_resilient (lines : List (List Char)) :
    ((readLoop lines).2 = true ↔ [] ∈ lines) ∧
    (readLoop lines).1 =
      (lines.takeWhile (fun l => !l.isEmpty)).map procLine := by
  induction lines with
  | nil =>
      exact ⟨by simp [readLoop], by simp [readLoop]⟩
  | cons l rest ih =>
      by_cases hl : l = []
      · subst hl
        constructor
        · rw [readLoop, if_pos rfl]
          simp
        · rw [readLoop, if_pos rfl]
          simp [List.takeWhile_cons, List.isEmpty_nil]
      · have hne : (!l.isEmpty) = true := by
          simp [List.isEmpty_iff, hl]
        constructor
        · rw [readLoop, if_neg hl]
          dsimp only
          have hmem : ([] ∈ l :: rest) ↔ ([] ∈ rest) := by
            constructor
            · intro h
              rcases List.mem_cons.mp h with h1 | h2
              · exact absurd h1.symm hl
              · exact h2
            · exact fun h => List.mem_cons_of_mem l h
          cases hp : Message.parse (pyStrip l) with
          | none =>
              dsimp only
              rw [hmem]
              exact ih.1
          | some msg =>
              dsimp only
              rw [hmem]
              exact ih.1
        · rw [readLoop, if_neg hl]
          dsimp only
          rw [List.takeWhile_cons, if_pos hne]
          cases hp : Message.parse (pyStrip l) with
          | none =>
              dsimp only
              rw [ih.2, List.map_cons]
              congr 1
              rw [procLine, hp]
          | some msg =>
              dsimp only
              rw [ih.2, List.map_cons]
              congr 1
              rw [procLine, hp]

end Airc
